import Mathlib

/-!
Verification of the snapshot/pool collectors of zfs-event-exporter.

The definitions below are a shallow embedding of the Go source:
  * `zfs/snapshot/snapshot.go` — the snapshot inventory store
    (`snapshotsState.parse`, `addSnapshot`, `removeSnapshot`, `eventLoop`),
  * `main.go` — the ordered-insert store (`zfsSnapshotState.add`),
  * `zfs/pool/pool.go` — the status collector (`setStatus`, `parseErrors`,
    `zpoolErrors.setErrors` and the error-counter part of `Collect`).
Machine integers are modelled as `Nat`/`Int` with explicit range checks where
the Go parsers enforce them; Go maps keyed by strings are modelled as
association lists; Prometheus metric vectors are association lists from label
tuples to rational values (exact arithmetic stands in for float64, whose
rounding is irrelevant to the integer-valued counters considered here).
-/

/-- One snapshot record: Go `snapshotState` (snapshot.go) and `snapshot`
(main.go) have the identical shape {name, creation time, used bytes}.
`ts` is the Unix-seconds value `time.Unix(tsUnix, 0)` wraps. -/
structure SnapshotState where
  name : String
  ts : Int
  used : Nat
deriving DecidableEq, Repr

/-- Go `map[string][]snapshotState`, as an association list. -/
abbrev Datasets := List (String × List SnapshotState)

/-- Go map read `m[k]` (comma-ok form): first entry with the key. -/
def lookupA : Datasets → String → Option (List SnapshotState)
  | [], _ => none
  | (k, v) :: rest, d => if k = d then some v else lookupA rest d

/-- Go map write `m[k] = v`: replace the entry in place, or add it. -/
def setEntry : Datasets → String → List SnapshotState → Datasets
  | [], d, l => [(d, l)]
  | (k, v) :: rest, d, l => if k = d then (d, l) :: rest else (k, v) :: setEntry rest d l

/-- Go map read with zero value: a missing key yields the nil slice. -/
def getRecs (st : Datasets) (d : String) : List SnapshotState :=
  (lookupA st d).getD []

/-- Go `unicode.IsSpace` restricted to the ASCII space characters that can occur
inside a scanned line. -/
def goIsSpace (c : Char) : Bool :=
  c = ' ' || c = '\t' || c = '\n' || c = '\r' || c = '\x0b' || c = '\x0c'

/-- Helper for `goFields`: split on whitespace runs, accumulating the current
field in reverse. -/
def splitFieldsAux : List Char → List Char → List String
  | [], acc => if acc.isEmpty then [] else [String.mk acc.reverse]
  | c :: cs, acc =>
    if goIsSpace c then
      if acc.isEmpty then splitFieldsAux cs []
      else String.mk acc.reverse :: splitFieldsAux cs []
    else splitFieldsAux cs (c :: acc)

/-- Go `strings.Fields`: the whitespace-separated fields of a line. -/
def goFields (s : String) : List String := splitFieldsAux s.data []

/-- Go `strings.LastIndex(s, "@")` on the character list: index of the last
`'@'`, `none` standing for the Go result -1. -/
def lastIndexAt : List Char → Option Nat
  | [] => none
  | c :: rest =>
    match lastIndexAt rest with
    | some k => some (k + 1)
    | none => if c = '@' then some 0 else none

/-- Decimal digits to a number (most significant first). -/
def digitsVal (cs : List Char) : Nat :=
  cs.foldl (fun a c => a * 10 + (c.toNat - 48)) 0

/-- Go `strconv.ParseUint(s, 10, 64)`: digits only, no sign, range < 2^64. -/
def goParseUint64 (s : String) : Option Nat :=
  let cs := s.data
  if cs.isEmpty then none
  else if cs.all Char.isDigit then
    let n := digitsVal cs
    if n < 2 ^ 64 then some n else none
  else none

/-- Go `strconv.ParseInt(s, 10, 64)`: optional sign, digits, 64-bit range. -/
def goParseInt64 (s : String) : Option Int :=
  match s.data with
  | [] => none
  | c :: rest =>
    let neg : Bool := c = '-'
    let ds := if c = '-' || c = '+' then rest else c :: rest
    if ds.isEmpty then none
    else if ds.all Char.isDigit then
      let n := digitsVal ds
      if neg then
        if n ≤ 2 ^ 63 then some (-(n : Int)) else none
      else
        if n < 2 ^ 63 then some (n : Int) else none
    else none

/-- One line of `snapshotsState.parse` (snapshot.go lines 80–108): split into
fields, require exactly 3, split the identifier at the last `'@'`, parse the
creation timestamp (signed) and used bytes (unsigned). `none` is the error
return. -/
def parseLine (line : String) : Option (String × SnapshotState) :=
  let fields := goFields line
  if fields.length ≠ 3 then none
  else
    let f0 := (fields.getD 0 "").data
    match lastIndexAt f0 with
    | none => none
    | some idx =>
      match goParseInt64 (fields.getD 1 "") with
      | none => none
      | some ts =>
        match goParseUint64 (fields.getD 2 "") with
        | none => none
        | some used =>
          some (String.mk (f0.take idx), ⟨String.mk (f0.drop (idx + 1)), ts, used⟩)

/-- Sort order used by `sort.Slice(..., snapshots[i].ts.Before(snapshots[j].ts))`:
non-decreasing creation timestamps. -/
def tsLe (a b : SnapshotState) : Prop := a.ts ≤ b.ts

instance : DecidableRel tsLe := fun a b => inferInstanceAs (Decidable (a.ts ≤ b.ts))

instance : IsTotal SnapshotState tsLe := ⟨fun a b => Int.le_total a.ts b.ts⟩

instance : IsTrans SnapshotState tsLe := ⟨fun _ _ _ hab hbc => le_trans hab hbc⟩

/-- The per-dataset sort at the end of `snapshotsState.parse` (lines 111–115):
every dataset's slice is sorted by timestamp. `sort.Slice` produces some
permutation ordered by `ts`; insertion sort is the representative chosen. -/
def sortAll (st : Datasets) : Datasets :=
  st.map (fun p => (p.1, List.insertionSort tsLe p.2))

/-- Go `s[dataset] = append(s[dataset], rec)`: append to the (possibly nil)
slice for that key. -/
def appendRec (st : Datasets) (d : String) (r : SnapshotState) : Datasets :=
  setEntry st d (getRecs st d ++ [r])

/-- Go `snapshotsState.parse` (snapshot.go lines 77–118). The receiver map is
mutated line by line; on the first malformed line the error returns with
everything appended so far kept, and the final sort is skipped. On success
every dataset list is sorted. The `Option String` is the error (the
offending line). -/
def snapshotsStateParse (st : Datasets) : List String → Datasets × Option String
  | [] => (sortAll st, none)
  | line :: rest =>
    match parseLine line with
    | none => (st, some line)
    | some (d, r) => snapshotsStateParse (appendRec st d r) rest

/-- Go `zfsSnapshotState.add` scan (main.go lines 124–134): walk the existing
slice; `none` means a record with the name exists (the Go early `return`),
`some idx` is the insertion point — the first position whose timestamp is
after the new one's. -/
def scanInsertIdx (snapshotName : String) (t : Int) : List SnapshotState → Option Nat
  | [] => some 0
  | s :: rest =>
    if s.name = snapshotName then none
    else if t < s.ts then some 0
    else (scanInsertIdx snapshotName t rest).map (· + 1)

/-- Go `zfsSnapshotState.add` (main.go lines 107–141): insert a record for
`(datasetName, snapshotName)` keeping timestamp order, a no-op when the name
is already present. -/
def zfsAdd (st : Datasets) (datasetName snapshotName : String) (size : Nat) (t : Int) : Datasets :=
  let snap : SnapshotState := ⟨snapshotName, t, size⟩
  match lookupA st datasetName with
  | none => setEntry st datasetName [snap]
  | some snapshots =>
    match scanInsertIdx snapshotName t snapshots with
    | none => st
    | some idx => setEntry st datasetName (snapshots.take idx ++ snap :: snapshots.drop idx)

/-- A sequence of `add` calls (the startup enumeration loop of main.go feeds
`snapshots.add(name, snapshotName, used, creation)` one record at a time). -/
def applyInserts (st : Datasets) (ops : List (String × String × Nat × Int)) : Datasets :=
  ops.foldl (fun s op => zfsAdd s op.1 op.2.1 op.2.2.1 op.2.2.2) st

/-- The loop body of `(*snapshotCollector).removeSnapshot` (snapshot.go lines
175–180), modelled at the level of the shared backing array. `arr` is the
underlying array (its length never changes), `m` the current length of the
map's slice header, `i` the index of the range loop over the original
`snapshots` header, and `fuel` the remaining iterations. `append(s[:i],
s[i+1:]...)` shifts `s[i+1:m]` left one slot in place, leaving the old
element at `m-1` as a stale tail entry, and panics (`none`) when `i+1`
exceeds the current length `m`. -/
def removeIter (sn : String) : Nat → List SnapshotState → Nat → Nat → Option (List SnapshotState × Nat)
  | 0, arr, m, _ => some (arr, m)
  | fuel + 1, arr, m, i =>
    match arr[i]? with
    | none => some (arr, m)
    | some v =>
      if v.name = sn then
        if m < i + 1 then none
        else
          removeIter sn fuel
            (arr.take i ++ (arr.drop (i + 1)).take (m - i - 1) ++ arr.drop (m - 1))
            (m - 1) (i + 1)
      else removeIter sn fuel arr m (i + 1)

/-- Go `(*snapshotCollector).removeSnapshot` (snapshot.go lines 166–181).
`none` models the run-time panic of the slice expression. -/
def removeSnapshot (st : Datasets) (datasetName snapshotName : String) : Option Datasets :=
  match lookupA st datasetName with
  | none => some st
  | some snapshots =>
    (removeIter snapshotName snapshots.length snapshots snapshots.length 0).map
      (fun r => setEntry st datasetName (r.1.take r.2))

/-- Go `(*snapshotCollector).addSnapshot` (snapshot.go lines 183–193): re-list
the dataset (`lister` models the injected `listSnapshots` callback; `none` is
a subprocess failure) and parse the result into the live map. The `Bool`
reports whether an error was returned. -/
def addSnapshot (lister : String → Option (List String)) (st : Datasets)
    (datasetName : String) (_snapshotName : String) : Datasets × Bool :=
  match lister datasetName with
  | none => (st, true)
  | some lines =>
    match snapshotsStateParse st lines with
    | (st', none) => (st', false)
    | (st', some _) => (st', true)

/-- A decoded `zpoolEvent` (snapshot.go lines 266–270); the `Time` field is
never read by the event loop and is omitted. -/
structure ZpoolEvent where
  historyInternalName : String
  historyDSName : String
deriving DecidableEq, Repr

/-- How a run of the event loop ended: channel/input exhausted (`done`), the
error return of a failed `addSnapshot` (`failed`), or a panic inside
`removeSnapshot` (`panicked`). -/
inductive LoopExit where
  | done
  | failed
  | panicked
deriving DecidableEq, Repr

/-- Go `(*snapshotCollector).eventLoop` (snapshot.go lines 195–228) over a list
of received events: skip events that are neither `snapshot` nor `destroy`,
skip identifiers without `'@'`, dispatch `destroy` to `removeSnapshot` and
`snapshot` to `addSnapshot`; an `addSnapshot` error is returned, ending the
loop. -/
def eventLoop (lister : String → Option (List String)) :
    Datasets → List ZpoolEvent → Datasets × LoopExit
  | st, [] => (st, .done)
  | st, e :: rest =>
    if e.historyInternalName ≠ "snapshot" ∧ e.historyInternalName ≠ "destroy" then
      eventLoop lister st rest
    else
      match lastIndexAt e.historyDSName.data with
      | none => eventLoop lister st rest
      | some idx =>
        let dataset := String.mk (e.historyDSName.data.take idx)
        let snapshot := String.mk (e.historyDSName.data.drop (idx + 1))
        if e.historyInternalName = "destroy" then
          match removeSnapshot st dataset snapshot with
          | none => (st, .panicked)
          | some st' => eventLoop lister st' rest
        else
          match addSnapshot lister st dataset snapshot with
          | (st', false) => eventLoop lister st' rest
          | (st', true) => (st', .failed)

/-- The fixed health-state set `poolStates` (pool.go lines 17–26). -/
def poolStates : List String := ["online", "degraded", "faulted", "offline", "unavail", "removed"]

/-- Go `strings.ToLower` on the ASCII strings that occur in status reports. -/
def goToLower (s : String) : String := String.mk (s.data.map Char.toLower)

/-- Go `setStatus` (pool.go lines 32–46): the six (state, value) series emitted
for one node, 1.0 for the state equal to the lowercased observed health and
0.0 for the others. Values are modelled in `ℚ`. -/
def setStatus (health : String) : List (String × ℚ) :=
  let status := goToLower health
  poolStates.map (fun s => (s, if s = status then (1 : ℚ) else 0))

/-- Go `zpoolErrors` (pool.go lines 96–100). -/
structure ZpoolErrors where
  cksum : Nat
  read : Nat
  write : Nat
deriving DecidableEq, Repr

/-- Go `parseErrors` (pool.go lines 127–156): require at least 5 fields, then
parse fields[2], fields[3], fields[4] as unsigned 64-bit read/write/checksum
counters. Go joins the three parse failures into one error; `none` stands
for that joined error. -/
def parseErrors (fields : List String) : Option ZpoolErrors :=
  if fields.length < 5 then none
  else
    match goParseUint64 (fields.getD 2 ""), goParseUint64 (fields.getD 3 ""),
        goParseUint64 (fields.getD 4 "") with
    | some read, some write, some cksum => some ⟨cksum, read, write⟩
    | _, _, _ => none

/-- Modelled from the spec: the spec's reading of the same routine — "A row
with ≥5 whitespace-separated fields has its last 3 fields parsed as unsigned
64-bit read/write/checksum counters" — written out for comparison with
`parseErrors`, which the source defines over fixed indices. -/
def specParseErrorsLast3 (fields : List String) : Option ZpoolErrors :=
  if fields.length < 5 then none
  else
    let n := fields.length
    match goParseUint64 (fields.getD (n - 3) ""), goParseUint64 (fields.getD (n - 2) ""),
        goParseUint64 (fields.getD (n - 1) "") with
    | some read, some write, some cksum => some ⟨cksum, read, write⟩
    | _, _, _ => none

/-- A Prometheus `CounterVec`, as label tuple ↦ accumulated value. -/
abbrev CounterVec := List (List String × ℚ)

/-- Go `m.WithLabelValues(labels...).Add(v)`: create the child at 0 if absent,
then add. -/
def withLabelAdd : CounterVec → List String → ℚ → CounterVec
  | [], ls, v => [(ls, v)]
  | p :: rest, ls, v => if p.1 = ls then (p.1, p.2 + v) :: rest else p :: withLabelAdd rest ls v

/-- Read a counter child's current value (0 when the child does not exist). -/
def counterGet (m : CounterVec) (ls : List String) : ℚ :=
  match m with
  | [] => 0
  | p :: rest => if p.1 = ls then p.2 else counterGet rest ls

/-- Go `(*zpoolErrors).setErrors` (pool.go lines 102–109): nil receiver is a
no-op; otherwise add the three counters under the `type` label values
`read`, `write`, `checksum`. -/
def setErrors : Option ZpoolErrors → CounterVec → List String → CounterVec
  | none, m, _ => m
  | some e, m, labelValues =>
    let m1 := withLabelAdd m (labelValues ++ ["read"]) (e.read : ℚ)
    let m2 := withLabelAdd m1 (labelValues ++ ["write"]) (e.write : ℚ)
    withLabelAdd m2 (labelValues ++ ["checksum"]) (e.cksum : ℚ)

/-- A parsed `poolStatus` node (pool.go lines 111–115). -/
structure PoolStatus where
  name : String
  health : String
  errors : Option ZpoolErrors
deriving DecidableEq, Repr

/-- The pool-error part of one `(*poolCollector).Collect` cycle (pool.go
lines 268–301): `metricErrors.Reset()` discards the previous cycle's counter
vector (`_prev`), then each parsed pool's errors are added into the fresh
vector. The disk loop feeds `metricDiskErrors` through the same `setErrors`
with a 2-label tuple. -/
def collectCycleErrors (_prev : CounterVec) (pools : List PoolStatus) : CounterVec :=
  pools.foldl (fun m p => setErrors p.errors m [p.name]) ([] : CounterVec)

theorem lookupA_setEntry_self (st : Datasets) (d : String) (l : List SnapshotState) :
    lookupA (setEntry st d l) d = some l := by
  induction st with
  | nil => simp [setEntry, lookupA]
  | cons p rest ih =>
    by_cases h : p.1 = d
    · simp [setEntry, h, lookupA]
    · simp [setEntry, h, lookupA, ih]

theorem lookupA_setEntry_ne (st : Datasets) (d d' : String) (l : List SnapshotState)
    (h : d' ≠ d) : lookupA (setEntry st d l) d' = lookupA st d' := by
  have hne : ¬(d = d') := fun hh => h hh.symm
  induction st with
  | nil => simp [setEntry, lookupA, hne]
  | cons p rest ih =>
    obtain ⟨k, v⟩ := p
    by_cases hp : k = d
    · subst hp
      simp [setEntry, lookupA, hne]
    · simp [setEntry, hp, lookupA, ih]

theorem scanInsertIdx_spliced (n : String) (t : Int) (sz : Nat) :
    ∀ (l : List SnapshotState) (idx : Nat), scanInsertIdx n t l = some idx →
      scanInsertIdx n t (l.take idx ++ (⟨n, t, sz⟩ : SnapshotState) :: l.drop idx) = none := by
  intro l
  induction l with
  | nil =>
    intro idx h
    simp [scanInsertIdx] at h
    subst h
    simp [scanInsertIdx]
  | cons s rest ih =>
    intro idx h
    by_cases hn : s.name = n
    · simp [scanInsertIdx, hn] at h
    · by_cases ht : t < s.ts
      · simp [scanInsertIdx, hn, ht] at h
        subst h
        simp [scanInsertIdx]
      · simp [scanInsertIdx, hn, ht] at h
        obtain ⟨k, hk, rfl⟩ := h
        simpa [scanInsertIdx, hn, ht] using ih k hk

/-- Claim C6: `Insert` is idempotent — the `add` of main.go applied twice to the
same (dataset, snapshotName, size, timestamp) leaves exactly the list the
first application produced: the second call finds the name and returns
without touching the list. -/
theorem insert_idempotent (st : Datasets) (d n : String) (sz : Nat) (t : Int) :
    zfsAdd (zfsAdd st d n sz t) d n sz t = zfsAdd st d n sz t := by
  cases h : lookupA st d with
  | none =>
    simp only [zfsAdd, h]
    simp [lookupA_setEntry_self, scanInsertIdx]
  | some l =>
    cases hs : scanInsertIdx n t l with
    | none => simp [zfsAdd, h, hs]
    | some idx =>
      simp only [zfsAdd, h, hs]
      simp [lookupA_setEntry_self, scanInsertIdx_spliced n t sz l idx hs]

/-- Claim C10: an event whose action is `snapshot` or `destroy` but whose dataset
identifier contains no `'@'` is skipped by the event loop: no remove, no
re-query, the store is exactly what processing the remaining events alone
yields. -/
theorem eventLoop_skips_no_at (lister : String → Option (List String)) (st : Datasets)
    (e : ZpoolEvent) (rest : List ZpoolEvent)
    (hname : e.historyInternalName = "snapshot" ∨ e.historyInternalName = "destroy")
    (hat : lastIndexAt e.historyDSName.data = none) :
    eventLoop lister st (e :: rest) = eventLoop lister st rest := by
  have hcond : ¬(e.historyInternalName ≠ "snapshot" ∧ e.historyInternalName ≠ "destroy") := by
    rcases hname with h | h <;> simp [h]
  simp [eventLoop, hcond, hat]

theorem eventLoop_skips_no_at_witness :
    ((⟨"destroy", "pool-hdd/backup/data0/%recv"⟩ : ZpoolEvent).historyInternalName = "snapshot" ∨
      (⟨"destroy", "pool-hdd/backup/data0/%recv"⟩ : ZpoolEvent).historyInternalName = "destroy") ∧
    lastIndexAt ("pool-hdd/backup/data0/%recv" : String).data = none ∧
    eventLoop (fun _ => none) [("ds", [⟨"s1", 1, 1⟩])]
        [⟨"destroy", "pool-hdd/backup/data0/%recv"⟩] =
      eventLoop (fun _ => none) [("ds", [⟨"s1", 1, 1⟩])] [] :=
  ⟨Or.inr rfl, by decide,
    eventLoop_skips_no_at (fun _ => none) [("ds", [⟨"s1", 1, 1⟩])]
      ⟨"destroy", "pool-hdd/backup/data0/%recv"⟩ [] (Or.inr rfl) (by decide)⟩

theorem getRecs_appendRec_self (st : Datasets) (d : String) (r : SnapshotState) :
    getRecs (appendRec st d r) d = getRecs st d ++ [r] := by
  simp [appendRec, getRecs, lookupA_setEntry_self]

theorem getRecs_appendRec_ne (st : Datasets) (d d' : String) (r : SnapshotState)
    (h : d' ≠ d) : getRecs (appendRec st d r) d' = getRecs st d' := by
  simp [appendRec, getRecs, lookupA_setEntry_ne st d d' _ h]

theorem lookupA_sortAll (st : Datasets) (d : String) :
    lookupA (sortAll st) d = (lookupA st d).map (List.insertionSort tsLe) := by
  induction st with
  | nil => simp [sortAll, lookupA]
  | cons p rest ih =>
    by_cases h : p.1 = d
    · simp [sortAll, lookupA, h]
    · simpa [sortAll, lookupA, h] using ih

theorem getRecs_sortAll (st : Datasets) (d : String) :
    getRecs (sortAll st) d = List.insertionSort tsLe (getRecs st d) := by
  rw [getRecs, getRecs, lookupA_sortAll]
  cases lookupA st d <;> simp

/-- Whether a listing line parses to a record of dataset `d`. -/
def lineFor (d : String) (ln : String) : Bool :=
  match parseLine ln with
  | some p => p.1 = d
  | none => false

/-- Claim C2 (amended): `FullSync` does not merge per name — every successfully
parsed line's record is appended to its dataset's list unconditionally, so
after a successful parse each dataset's list has grown by exactly the number
of batch lines for it, even when those names were already present. -/
theorem fullsync_appends_every_line :
    ∀ (lines : List String) (st res : Datasets),
      snapshotsStateParse st lines = (res, none) →
      ∀ d, (getRecs res d).length = (getRecs st d).length + lines.countP (lineFor d) := by
  intro lines
  induction lines with
  | nil =>
    intro st res h d
    have hres : sortAll st = res := by
      simpa [snapshotsStateParse] using congrArg Prod.fst h
    subst hres
    simp [getRecs_sortAll, List.length_insertionSort]
  | cons ln rest ih =>
    intro st res h d
    cases hp : parseLine ln with
    | none =>
      rw [snapshotsStateParse, hp] at h
      exact absurd (congrArg Prod.snd h) (by simp)
    | some p =>
      obtain ⟨d', r⟩ := p
      rw [snapshotsStateParse, hp] at h
      have hrest := ih (appendRec st d' r) res h d
      by_cases hd : d' = d
      · subst hd
        rw [hrest, getRecs_appendRec_self]
        simp [List.countP_cons, lineFor, hp]
        omega
      · rw [hrest, getRecs_appendRec_ne st d' d r (fun hh => hd hh.symm)]
        simp [List.countP_cons, lineFor, hp, hd]

theorem fullsync_appends_every_line_witness :
    snapshotsStateParse [("ds", [⟨"s1", 5, 7⟩])] ["ds@s2 9 4"] =
      ([("ds", [⟨"s1", 5, 7⟩, ⟨"s2", 9, 4⟩])], none) ∧
    (getRecs ([("ds", [⟨"s1", 5, 7⟩, ⟨"s2", 9, 4⟩])] : Datasets) "ds").length =
      (getRecs ([("ds", [⟨"s1", 5, 7⟩])] : Datasets) "ds").length +
        (["ds@s2 9 4"] : List String).countP (lineFor "ds") :=
  ⟨by decide,
    fullsync_appends_every_line ["ds@s2 9 4"] [("ds", [⟨"s1", 5, 7⟩])]
      [("ds", [⟨"s1", 5, 7⟩, ⟨"s2", 9, 4⟩])] (by decide) "ds"⟩

/-- Counterexample to claim C2: a batch line whose (dataset, snapshotName) already
sits in the store is appended again — the dataset's list grows from 1 to 2
records instead of staying unchanged, so running the same listing twice
duplicates every record. -/
theorem fullsync_duplicates_cex :
    (getRecs (snapshotsStateParse [("ds", [⟨"s1", 5, 7⟩])] ["ds@s1 5 7"]).1 "ds").length = 2 ∧
    (snapshotsStateParse [("ds", [⟨"s1", 5, 7⟩])] ["ds@s1 5 7"]).2 = none := by
  decide

/-- One step of the line loop of `snapshotsState.parse`: append the parsed
record, leave the map alone on a line that fails to parse. -/
def appendStep (st : Datasets) (ln : String) : Datasets :=
  match parseLine ln with
  | some p => appendRec st p.1 p.2
  | none => st

/-- Claim C1 (amended): a malformed line makes the whole attempt fail with one
error — the first offending line — but the attempt is not free of side
effects: the records of every well-formed line before the malformed one have
already been appended to the receiver map (and the final per-dataset sort is
skipped). Only at startup, where the map is freshly built and discarded on
error, does the failure leave the visible store untouched. -/
theorem parse_stops_at_first_bad_line :
    ∀ (good : List String) (bad : String) (rest : List String) (st : Datasets),
      (∀ ln ∈ good, (parseLine ln).isSome = true) → parseLine bad = none →
      snapshotsStateParse st (good ++ bad :: rest) = (good.foldl appendStep st, some bad) := by
  intro good
  induction good with
  | nil =>
    intro bad rest st _ hbad
    simp [snapshotsStateParse, hbad]
  | cons ln g ih =>
    intro bad rest st hgood hbad
    have hln : (parseLine ln).isSome = true := hgood ln (List.mem_cons_self ln g)
    cases hp : parseLine ln with
    | none => rw [hp] at hln; simp at hln
    | some p =>
      obtain ⟨d', r⟩ := p
      simp only [List.cons_append, snapshotsStateParse, hp, List.append_eq]
      rw [ih bad rest (appendRec st d' r) (fun x hx => hgood x (List.mem_cons_of_mem ln hx)) hbad]
      simp [List.foldl_cons, appendStep, hp]

theorem parse_stops_at_first_bad_line_witness :
    (∀ ln ∈ (["a@s1 1 2"] : List String), (parseLine ln).isSome = true) ∧
    parseLine "x" = none ∧
    snapshotsStateParse [] (["a@s1 1 2"] ++ "x" :: []) =
      ((["a@s1 1 2"] : List String).foldl appendStep [], some "x") :=
  ⟨by decide, by decide,
    parse_stops_at_first_bad_line ["a@s1 1 2"] "x" [] [] (by decide) (by decide)⟩

/-- Counterexample to claim C1: the batch ["a@s1 1 2", "x"] fails on its second line,
yet the store — empty before the attempt — now holds the record parsed from
the first line: the failed attempt applied part of the batch. -/
theorem parse_partial_application_cex :
    (snapshotsStateParse [] ["a@s1 1 2", "x"]).2 = some "x" ∧
    (snapshotsStateParse [] ["a@s1 1 2", "x"]).1 ≠ ([] : Datasets) := by
  decide

/-- Claim C3 (amended): the error counters are not accumulated across collection
cycles — `Collect` resets the counter vector and then adds each freshly
parsed value into the empty vector, so whatever the previous cycle left
behind (`prev`), after a cycle that parses errors `e` for a pool the
exported counter equals `e` itself, not a running sum. -/
theorem collect_replaces_error_counters (prev : CounterVec) (p : PoolStatus) (e : ZpoolErrors)
    (h : p.errors = some e) :
    counterGet (collectCycleErrors prev [p]) [p.name, "read"] = (e.read : ℚ) ∧
    counterGet (collectCycleErrors prev [p]) [p.name, "write"] = (e.write : ℚ) ∧
    counterGet (collectCycleErrors prev [p]) [p.name, "checksum"] = (e.cksum : ℚ) := by
  simp [collectCycleErrors, h, setErrors, withLabelAdd, counterGet]

theorem collect_replaces_error_counters_witness :
    (⟨"p", "ONLINE", some ⟨6, 2, 4⟩⟩ : PoolStatus).errors = some ⟨6, 2, 4⟩ ∧
    counterGet (collectCycleErrors [(["p", "read"], 7)] [⟨"p", "ONLINE", some ⟨6, 2, 4⟩⟩])
        ["p", "read"] = (2 : ℚ) :=
  ⟨rfl,
    (collect_replaces_error_counters [(["p", "read"], 7)] ⟨"p", "ONLINE", some ⟨6, 2, 4⟩⟩
      ⟨6, 2, 4⟩ rfl).1⟩

/-- Counterexample to claim C3: two consecutive collection cycles that each parse
read-error value 1 for pool `p` leave the exported counter at 1, not at the
accumulated 2 the claim requires. -/
theorem collect_not_additive_cex :
    counterGet (collectCycleErrors (collectCycleErrors [] [⟨"p", "ONLINE", some ⟨1, 1, 1⟩⟩])
        [⟨"p", "ONLINE", some ⟨1, 1, 1⟩⟩]) ["p", "read"] = (1 : ℚ) ∧
    counterGet (collectCycleErrors (collectCycleErrors [] [⟨"p", "ONLINE", some ⟨1, 1, 1⟩⟩])
        [⟨"p", "ONLINE", some ⟨1, 1, 1⟩⟩]) ["p", "read"] ≠ (2 : ℚ) := by
  decide

/-- Claim C5 (amended): `setStatus` always emits exactly 6 series; when the
lowercased health string is one of the 6 known states, exactly one of them
equals 1.0 and the other five equal 0.0. (A health string outside the set —
e.g. a suspended pool — yields six 0.0 series instead, see the
counterexample.) -/
theorem setStatus_one_hot (h : String) (hmem : goToLower h ∈ poolStates) :
    (setStatus h).length = 6 ∧
    (setStatus h).countP (fun p => decide (p.2 = (1 : ℚ))) = 1 ∧
    (setStatus h).countP (fun p => decide (p.2 = (0 : ℚ))) = 5 := by
  simp only [poolStates, List.mem_cons, List.not_mem_nil, or_false] at hmem
  rcases hmem with h1 | h1 | h1 | h1 | h1 | h1 <;>
    · simp only [setStatus, h1]
      decide

theorem setStatus_one_hot_witness :
    goToLower "DEGRADED" ∈ poolStates ∧
    ((setStatus "DEGRADED").length = 6 ∧
      (setStatus "DEGRADED").countP (fun p => decide (p.2 = (1 : ℚ))) = 1 ∧
      (setStatus "DEGRADED").countP (fun p => decide (p.2 = (0 : ℚ))) = 5) :=
  ⟨by decide, setStatus_one_hot "DEGRADED" (by decide)⟩

/-- Counterexample to claim C5: a node carrying the health string `SUSPENDED` (not in
the fixed 6-state set) gets six series all equal to 0.0 — no series equals
1.0, refuting the one-hot claim for arbitrary health strings. -/
theorem setStatus_unknown_state_cex :
    (setStatus "SUSPENDED").countP (fun p => decide (p.2 = (1 : ℚ))) = 0 ∧
    (setStatus "SUSPENDED").length = 6 := by
  decide

/-- Claim C9 (amended): `parseErrors` reads the 3rd, 4th and 5th fields (indices
2–4) as the read/write/checksum counters; on a row with exactly 5 fields
these coincide with the last 3 fields, so the spec's reading agrees there —
but not on longer rows, whose trailing fields are ignored. -/
theorem parseErrors_fixed_indices :
    ∀ (f : List String), f.length = 5 → parseErrors f = specParseErrorsLast3 f := by
  intro f h
  rcases f with _ | ⟨a, _ | ⟨b, _ | ⟨c, _ | ⟨d, _ | ⟨e, _ | ⟨x, f'⟩⟩⟩⟩⟩⟩ <;>
    simp only [List.length_cons, List.length_nil] at h <;>
    first
    | rfl
    | omega

theorem parseErrors_fixed_indices_witness :
    (["n", "ONLINE", "1", "2", "3"] : List String).length = 5 ∧
    parseErrors ["n", "ONLINE", "1", "2", "3"] =
      specParseErrorsLast3 ["n", "ONLINE", "1", "2", "3"] :=
  ⟨rfl, parseErrors_fixed_indices ["n", "ONLINE", "1", "2", "3"] rfl⟩

/-- Counterexample to claim C9: on a 6-field row the code takes fields 2–4 (read=1,
write=2, cksum=3) while the claimed "last 3 fields" reading would take
fields 3–5 (read=2, write=3, cksum=4); the two disagree. -/
theorem parseErrors_not_last3_cex :
    parseErrors ["d", "ONLINE", "1", "2", "3", "4"] = some ⟨3, 1, 2⟩ ∧
    specParseErrorsLast3 ["d", "ONLINE", "1", "2", "3", "4"] = some ⟨4, 2, 3⟩ ∧
    parseErrors ["d", "ONLINE", "1", "2", "3", "4"] ≠
      specParseErrorsLast3 ["d", "ONLINE", "1", "2", "3", "4"] := by
  decide

/-- A listing callback whose subprocess always fails. -/
def failLister : String → Option (List String) := fun _ => none

/-- Claim C4 (amended): when the listing re-query triggered by a creation event
fails, the triggering FullSync is indeed skipped and the store keeps its
last known-good content for the affected dataset — but the event loop does
not continue: `eventLoop` returns the error (which the collector goroutine
then logs), so no subsequent event is consumed or dispatched. A re-query
failure is as terminal for the pipeline as a DecodeError. -/
theorem eventLoop_stops_on_requery_failure (lister : String → Option (List String))
    (st : Datasets) (e : ZpoolEvent) (rest : List ZpoolEvent) (idx : Nat)
    (hname : e.historyInternalName = "snapshot")
    (hat : lastIndexAt e.historyDSName.data = some idx)
    (hfail : lister (String.mk (e.historyDSName.data.take idx)) = none) :
    eventLoop lister st (e :: rest) = (st, LoopExit.failed) := by
  have hnd : ("snapshot" : String) ≠ "destroy" := by decide
  simp [eventLoop, hname, hat, hnd, addSnapshot, hfail]

theorem eventLoop_stops_on_requery_failure_witness :
    (⟨"snapshot", "ds@s2"⟩ : ZpoolEvent).historyInternalName = "snapshot" ∧
    lastIndexAt ("ds@s2" : String).data = some 2 ∧
    failLister (String.mk (("ds@s2" : String).data.take 2)) = none ∧
    eventLoop failLister [("ds", [⟨"s1", 1, 1⟩])]
        [⟨"snapshot", "ds@s2"⟩, ⟨"destroy", "ds@s1"⟩] =
      ([("ds", [⟨"s1", 1, 1⟩])], LoopExit.failed) :=
  ⟨rfl, by decide, rfl,
    eventLoop_stops_on_requery_failure failLister [("ds", [⟨"s1", 1, 1⟩])]
      ⟨"snapshot", "ds@s2"⟩ [⟨"destroy", "ds@s1"⟩] 2 rfl (by decide) rfl⟩

/-- Counterexample to claim C4: with a failing re-query, the event loop handed the
creation event and then a destroy event returns after the first event with
the store untouched — the destroy of `s1` is never dispatched, although
dispatching the remaining events alone would have removed `s1`. The claim
that the loop "continues consuming and dispatching subsequent events" fails
here. -/
theorem eventLoop_requery_failure_cex :
    eventLoop failLister [("ds", [⟨"s1", 1, 1⟩])]
        [⟨"snapshot", "ds@s2"⟩, ⟨"destroy", "ds@s1"⟩] =
      ([("ds", [⟨"s1", 1, 1⟩])], LoopExit.failed) ∧
    eventLoop failLister [("ds", [⟨"s1", 1, 1⟩])] [⟨"destroy", "ds@s1"⟩] =
      ([("ds", [])], LoopExit.done) := by
  decide

/-- A per-dataset list ordered by non-decreasing creation timestamp. -/
def tsSorted (l : List SnapshotState) : Prop := List.Chain' tsLe l

/-- Every dataset list in the store is ordered by creation timestamp. -/
def storeSorted (st : Datasets) : Prop := ∀ d l, lookupA st d = some l → tsSorted l

theorem scanInsertIdx_take_le (n : String) (t : Int) :
    ∀ (l : List SnapshotState) (idx : Nat), scanInsertIdx n t l = some idx →
      ∀ x ∈ l.take idx, x.ts ≤ t := by
  intro l
  induction l with
  | nil =>
    intro idx h
    simp [scanInsertIdx] at h
    subst h
    simp
  | cons s rest ih =>
    intro idx h
    by_cases hn : s.name = n
    · simp [scanInsertIdx, hn] at h
    · by_cases ht : t < s.ts
      · simp [scanInsertIdx, hn, ht] at h
        subst h
        simp
      · simp [scanInsertIdx, hn, ht] at h
        obtain ⟨k, hk, rfl⟩ := h
        intro x hx
        rcases List.mem_cons.mp (by simpa [List.take_cons] using hx) with rfl | hx'
        · exact le_of_not_lt ht
        · exact ih k hk x hx'

theorem scanInsertIdx_drop_head (n : String) (t : Int) :
    ∀ (l : List SnapshotState) (idx : Nat), scanInsertIdx n t l = some idx →
      ∀ x ∈ (l.drop idx).head?, t < x.ts := by
  intro l
  induction l with
  | nil =>
    intro idx h
    simp [scanInsertIdx] at h
    subst h
    simp
  | cons s rest ih =>
    intro idx h
    by_cases hn : s.name = n
    · simp [scanInsertIdx, hn] at h
    · by_cases ht : t < s.ts
      · simp [scanInsertIdx, hn, ht] at h
        subst h
        simpa using ht
      · simp [scanInsertIdx, hn, ht] at h
        obtain ⟨k, hk, rfl⟩ := h
        simpa [List.drop_succ_cons] using ih k hk

theorem tsSorted_splice (l : List SnapshotState) (idx : Nat) (n : String) (t : Int) (sz : Nat)
    (hl : tsSorted l) (hs : scanInsertIdx n t l = some idx) :
    tsSorted (l.take idx ++ (⟨n, t, sz⟩ : SnapshotState) :: l.drop idx) := by
  rw [tsSorted, List.chain'_append]
  refine ⟨hl.take idx, ?_, ?_⟩
  · rw [List.chain'_cons']
    refine ⟨?_, hl.drop idx⟩
    intro y hy
    exact le_of_lt (scanInsertIdx_drop_head n t l idx hs y hy)
  · intro x hx y hy
    rw [List.head?_cons, Option.mem_some_iff] at hy
    subst hy
    exact scanInsertIdx_take_le n t l idx hs x (List.mem_of_mem_getLast? hx)

theorem storeSorted_add (st : Datasets) (hst : storeSorted st) (d n : String) (sz : Nat)
    (t : Int) : storeSorted (zfsAdd st d n sz t) := by
  intro d' l' hl'
  cases h : lookupA st d with
  | none =>
    simp only [zfsAdd, h] at hl'
    by_cases hd : d' = d
    · subst hd
      rw [lookupA_setEntry_self] at hl'
      cases hl'
      exact List.chain'_singleton _
    · rw [lookupA_setEntry_ne st d d' _ hd] at hl'
      exact hst d' l' hl'
  | some l =>
    cases hs : scanInsertIdx n t l with
    | none =>
      simp only [zfsAdd, h, hs] at hl'
      exact hst d' l' hl'
    | some idx =>
      simp only [zfsAdd, h, hs] at hl'
      by_cases hd : d' = d
      · subst hd
        rw [lookupA_setEntry_self] at hl'
        cases hl'
        exact tsSorted_splice l idx n t sz (hst d' l h) hs
      · rw [lookupA_setEntry_ne st d d' _ hd] at hl'
        exact hst d' l' hl'

/-- Claim C7: every `add` splices its record at the first position whose existing
timestamp is after the new one's, so any sequence of inserts applied to a
store whose lists are sorted (the empty store included) leaves every
dataset's list with non-decreasing creation timestamps. -/
theorem inserts_preserve_sorted (st : Datasets) (ops : List (String × String × Nat × Int))
    (hst : storeSorted st) : storeSorted (applyInserts st ops) := by
  induction ops generalizing st with
  | nil => exact hst
  | cons op rest ih =>
    exact ih (zfsAdd st op.1 op.2.1 op.2.2.1 op.2.2.2)
      (storeSorted_add st hst op.1 op.2.1 op.2.2.1 op.2.2.2)

theorem inserts_preserve_sorted_witness :
    storeSorted ([] : Datasets) ∧
    storeSorted (applyInserts [] [("d", "s1", 5, 10), ("d", "s2", 6, 3), ("d", "s3", 7, 7)]) :=
  have he : storeSorted ([] : Datasets) := fun _ _ h => nomatch h
  ⟨he, inserts_preserve_sorted [] [("d", "s1", 5, 10), ("d", "s2", 6, 3), ("d", "s3", 7, 7)] he⟩


theorem memOfGetElem {l : List SnapshotState} {a : SnapshotState} {n : Nat}
    (h : l[n]? = some a) : a ∈ l := by
  have h2 : n < l.length := by
    by_contra hc
    rw [List.getElem?_eq_none (by omega)] at h
    exact Option.noConfusion h
  rw [List.getElem?_eq_getElem h2] at h
  cases h
  exact List.getElem_mem h2

theorem removeIter_out (sn : String) (fuel : Nat) (arr : List SnapshotState) (m i : Nat)
    (hg : arr[i]? = none) : removeIter sn fuel arr m i = some (arr, m) := by
  cases fuel with
  | zero => rfl
  | succ f => simp [removeIter, hg]

theorem removeIter_no_match (sn : String) :
    ∀ (fuel : Nat) (arr : List SnapshotState) (m i : Nat),
      (∀ v ∈ arr.drop i, v.name ≠ sn) →
      removeIter sn fuel arr m i = some (arr, m) := by
  intro fuel
  induction fuel with
  | zero => intro arr m i _; rfl
  | succ f ih =>
    intro arr m i h
    cases hg : arr[i]? with
    | none => simp [removeIter, hg]
    | some v =>
      have hv : v ∈ arr.drop i := by
        have h0 : (arr.drop i)[0]? = some v := by
          rw [List.getElem?_drop]
          simpa using hg
        exact memOfGetElem h0
      have hne : ¬(v.name = sn) := h v hv
      have hsub : arr.drop (i + 1) ⊆ arr.drop i := by
        intro w hw
        rw [← List.drop_drop] at hw
        exact List.drop_subset 1 (arr.drop i) hw
      simp only [removeIter, hg, hne, if_false]
      exact ih arr m (i + 1) (fun w hw => h w (hsub hw))

theorem removeIter_walk (sn : String) :
    ∀ (k rest : Nat) (arr : List SnapshotState) (m i : Nat),
      (∀ j, j < k → ∀ v, arr[i + j]? = some v → v.name ≠ sn) →
      removeIter sn (k + rest) arr m i = removeIter sn rest arr m (i + k) := by
  intro k
  induction k with
  | zero => intro rest arr m i _; simp
  | succ k ih =>
    intro rest arr m i h
    rw [show k + 1 + rest = (k + rest) + 1 by omega]
    cases hg : arr[i]? with
    | none =>
      have hlen : arr.length ≤ i := List.getElem?_eq_none_iff.mp hg
      have hg2 : arr[i + (k + 1)]? = none := List.getElem?_eq_none (by omega)
      rw [removeIter_out sn ((k + rest) + 1) arr m i hg,
        removeIter_out sn rest arr m (i + (k + 1)) hg2]
    | some v =>
      have hne : ¬(v.name = sn) := h 0 (by omega) v (by simpa using hg)
      simp only [removeIter, hg, hne, if_false]
      have hrec := ih rest arr m (i + 1)
        (fun j hj w hw => h (j + 1) (by omega) w (by rwa [show i + (j + 1) = i + 1 + j by omega]))
      rwa [show i + 1 + k = i + (k + 1) by omega] at hrec

theorem countP_one_split (p : SnapshotState → Bool) :
    ∀ (l : List SnapshotState), l.countP p = 1 →
      ∃ l₁ v l₂, l = l₁ ++ v :: l₂ ∧ p v = true ∧
        (∀ x ∈ l₁, p x = false) ∧ (∀ x ∈ l₂, p x = false) := by
  intro l
  induction l with
  | nil => intro h; simp at h
  | cons a l ih =>
    intro h
    rw [List.countP_cons] at h
    cases hp : p a with
    | true =>
      rw [hp] at h
      rw [if_pos rfl] at h
      have h0 : l.countP p = 0 := by omega
      refine ⟨[], a, l, by simp, hp, by simp, ?_⟩
      intro x hx
      have hxne := List.countP_eq_zero.mp h0 x hx
      simpa using hxne
    | false =>
      rw [hp] at h
      simp at h
      obtain ⟨l₁, v, l₂, rfl, hv, h₁, h₂⟩ := ih h
      refine ⟨a :: l₁, v, l₂, by simp, hv, ?_, h₂⟩
      intro x hx
      rcases List.mem_cons.mp hx with rfl | hx'
      · exact hp
      · exact h₁ x hx'

/-- The deletion loop on a backing array holding exactly one matching record
(at position `l₁.length`): no panic, the match is dropped, and the final
slice — the array truncated to the shrunk length — is the list without the
match. -/
theorem removeIter_single (sn : String) (l₁ : List SnapshotState) (v : SnapshotState)
    (l₂ : List SnapshotState) (hv : v.name = sn)
    (h₁ : ∀ x ∈ l₁, x.name ≠ sn) (h₂ : ∀ x ∈ l₂, x.name ≠ sn) :
    ∃ arr, removeIter sn (l₁ ++ v :: l₂).length (l₁ ++ v :: l₂) (l₁ ++ v :: l₂).length 0 =
        some (arr, (l₁ ++ v :: l₂).length - 1) ∧
      arr.take ((l₁ ++ v :: l₂).length - 1) = l₁ ++ l₂ := by
  have hlen : (l₁ ++ v :: l₂).length = l₁.length + (l₂.length + 1) := by
    simp [List.length_append]
  have h0 : ∀ j, j < l₁.length → ∀ w, (l₁ ++ v :: l₂)[0 + j]? = some w → w.name ≠ sn := by
    intro j hj w hw
    rw [Nat.zero_add, List.getElem?_append_left hj] at hw
    exact h₁ w (memOfGetElem hw)
  have hwalk := removeIter_walk sn l₁.length (l₂.length + 1) (l₁ ++ v :: l₂)
    (l₁ ++ v :: l₂).length 0 h0
  rw [Nat.zero_add] at hwalk
  have hgk : (l₁ ++ v :: l₂)[l₁.length]? = some v := by
    rw [List.getElem?_append_right (le_refl _)]
    simp
  have hnp : ¬((l₁ ++ v :: l₂).length < l₁.length + 1) := by omega
  have hA : (l₁ ++ v :: l₂).take l₁.length = l₁ := List.take_left l₁ (v :: l₂)
  have hd1 : (l₁ ++ v :: l₂).drop (l₁.length + 1) = l₂ := by
    rw [← List.drop_drop, List.drop_left]
    simp
  have hmid : ((l₁ ++ v :: l₂).drop (l₁.length + 1)).take ((l₁ ++ v :: l₂).length - l₁.length - 1)
      = l₂ := by
    rw [hd1, show (l₁ ++ v :: l₂).length - l₁.length - 1 = l₂.length by omega,
      List.take_length l₂]
  have hlast : (l₁ ++ v :: l₂).drop ((l₁ ++ v :: l₂).length - 1) = (v :: l₂).drop l₂.length := by
    rw [show (l₁ ++ v :: l₂).length - 1 = l₁.length + l₂.length by omega,
      ← List.drop_drop, List.drop_left]
  have hstep : removeIter sn (l₂.length + 1) (l₁ ++ v :: l₂) (l₁ ++ v :: l₂).length l₁.length =
      removeIter sn l₂.length (l₁ ++ (l₂ ++ (v :: l₂).drop l₂.length))
        ((l₁ ++ v :: l₂).length - 1) (l₁.length + 1) := by
    simp only [removeIter, hgk]
    rw [if_pos hv, if_neg hnp, hA, hmid, hlast, List.append_assoc]
  have hrest : ∀ w ∈ (l₁ ++ (l₂ ++ (v :: l₂).drop l₂.length)).drop (l₁.length + 1),
      w.name ≠ sn := by
    have hdrop : (l₁ ++ (l₂ ++ (v :: l₂).drop l₂.length)).drop (l₁.length + 1) =
        (l₂ ++ (v :: l₂).drop l₂.length).drop 1 := by
      rw [← List.drop_drop, List.drop_left]
    rw [hdrop]
    cases l₂ with
    | nil => simp
    | cons w₀ l₂' =>
      intro w hw
      have htail : ((w₀ :: l₂') ++ (v :: w₀ :: l₂').drop (w₀ :: l₂').length).drop 1 =
          l₂' ++ (w₀ :: l₂').drop l₂'.length := by
        simp [List.drop_succ_cons]
      rw [htail] at hw
      rcases List.mem_append.mp hw with hw₂ | hwt
      · exact h₂ w (List.mem_cons_of_mem w₀ hw₂)
      · exact h₂ w (List.drop_subset l₂'.length (w₀ :: l₂') hwt)
  refine ⟨l₁ ++ (l₂ ++ (v :: l₂).drop l₂.length), ?_, ?_⟩
  · calc removeIter sn (l₁ ++ v :: l₂).length (l₁ ++ v :: l₂) (l₁ ++ v :: l₂).length 0
        = removeIter sn (l₁.length + (l₂.length + 1)) (l₁ ++ v :: l₂)
            (l₁ ++ v :: l₂).length 0 := by rw [← hlen]
      _ = removeIter sn (l₂.length + 1) (l₁ ++ v :: l₂) (l₁ ++ v :: l₂).length l₁.length :=
            hwalk
      _ = removeIter sn l₂.length (l₁ ++ (l₂ ++ (v :: l₂).drop l₂.length))
            ((l₁ ++ v :: l₂).length - 1) (l₁.length + 1) := hstep
      _ = some (l₁ ++ (l₂ ++ (v :: l₂).drop l₂.length), (l₁ ++ v :: l₂).length - 1) :=
            removeIter_no_match sn l₂.length _ _ _ hrest
  · rw [← List.append_assoc]
    refine List.take_left' ?_
    simp only [List.length_append, List.length_cons]
    omega

/-- Claim C8 (amended): on a dataset list holding at most one record with the
name — the expected cardinality, which the claim notes — `Remove` deletes
the matching record (or does nothing when none matches, including for a
dataset never seen, without error or panic), and the dataset's map entry
stays present even when the list becomes empty. When several records carry
the name, however, the loop's slicing over the shrinking list panics (see
the counterexample) instead of deleting every match. -/
theorem remove_expected (st : Datasets) (dn sn : String) :
    (lookupA st dn = none → removeSnapshot st dn sn = some st) ∧
    (∀ l, lookupA st dn = some l →
      l.countP (fun r => decide (r.name = sn)) ≤ 1 →
      removeSnapshot st dn sn =
        some (setEntry st dn (l.filter (fun r => decide (¬ r.name = sn))))) := by
  constructor
  · intro h
    simp [removeSnapshot, h]
  · intro l hl hcount
    rcases Nat.lt_or_ge (l.countP (fun r => decide (r.name = sn))) 1 with h0 | h1
    · have h0' : l.countP (fun r => decide (r.name = sn)) = 0 := by omega
      have hnm : ∀ v ∈ l, v.name ≠ sn := by
        intro v hv
        have hd := List.countP_eq_zero.mp h0' v hv
        simpa using hd
      have hrem : removeIter sn l.length l l.length 0 = some (l, l.length) :=
        removeIter_no_match sn l.length l l.length 0 (by
          intro v hv
          exact hnm v (List.drop_subset 0 l hv))
      have hfilter : l.filter (fun r => decide (¬ r.name = sn)) = l :=
        List.filter_eq_self.mpr (fun a ha => decide_eq_true (hnm a ha))
      simp only [removeSnapshot, hl, hrem, Option.map_some']
      rw [List.take_length l, hfilter]
    · have h1' : l.countP (fun r => decide (r.name = sn)) = 1 := by omega
      obtain ⟨l₁, v, l₂, rfl, hv, h₁, h₂⟩ := countP_one_split _ l h1'
      have hv' : v.name = sn := of_decide_eq_true hv
      have h₁' : ∀ x ∈ l₁, x.name ≠ sn := fun x hx => of_decide_eq_false (h₁ x hx)
      have h₂' : ∀ x ∈ l₂, x.name ≠ sn := fun x hx => of_decide_eq_false (h₂ x hx)
      obtain ⟨arr, hrem, htake⟩ := removeIter_single sn l₁ v l₂ hv' h₁' h₂'
      have hfilter : (l₁ ++ v :: l₂).filter (fun r => decide (¬ r.name = sn)) = l₁ ++ l₂ := by
        rw [List.filter_append, List.filter_cons]
        rw [List.filter_eq_self.mpr (fun a ha => decide_eq_true (h₁' a ha)),
          List.filter_eq_self.mpr (fun a ha => decide_eq_true (h₂' a ha))]
        simp [hv']
      rw [hfilter]
      simp only [removeSnapshot, hl, hrem, Option.map_some']
      rw [htake]

theorem remove_expected_witness :
    lookupA [("d", [⟨"a", 1, 1⟩, ⟨"x", 2, 2⟩])] "d" = some [⟨"a", 1, 1⟩, ⟨"x", 2, 2⟩] ∧
    ([⟨"a", 1, 1⟩, ⟨"x", 2, 2⟩] : List SnapshotState).countP
      (fun r => decide (r.name = "x")) ≤ 1 ∧
    removeSnapshot [("d", [⟨"a", 1, 1⟩, ⟨"x", 2, 2⟩])] "d" "x" =
      some (setEntry [("d", [⟨"a", 1, 1⟩, ⟨"x", 2, 2⟩])] "d"
        (([⟨"a", 1, 1⟩, ⟨"x", 2, 2⟩] : List SnapshotState).filter
          (fun r => decide (¬ r.name = "x")))) :=
  ⟨by decide, by decide,
    (remove_expected [("d", [⟨"a", 1, 1⟩, ⟨"x", 2, 2⟩])] "d" "x").2
      [⟨"a", 1, 1⟩, ⟨"x", 2, 2⟩] (by decide) (by decide)⟩

/-- Counterexample to claim C8: a dataset list with two records named `x` does not
get both deleted — iterating over the original slice while splicing the
shrinking live slice re-reads the shifted element and then slices with
`i+1` beyond the current length, a run-time panic (`none` in the model). -/
theorem remove_duplicate_panics_cex :
    removeSnapshot [("d", [⟨"x", 1, 1⟩, ⟨"x", 2, 2⟩])] "d" "x" = none := by
  decide
